import Mathlib

/-!
Verification of the benchmark-result aggregation and artifact-generation
pipeline (benchmarking-cli `writer.rs` / `html_writer.rs`).

The data model and the grouping/analysis step (`map_results`,
`get_benchmark_data`, component classification) live in the crate's
`utils` module, whose source is not part of the visible tree; those
definitions are modelled from the specification (and corroborated by the
crate's own test `map_results_works`).  The two entry points
`write_results` (source-code mode) and `html_write_results` (report mode)
are shallow embeddings of the visible Rust functions, with the file
system, clock and process arguments made explicit.
-/

/-- Modelled from the spec: one raw per-run sample of a measurement batch
(`BenchmarkResult` in the harness): the varying-parameter assignment used
for the sample plus the per-sample metric record. -/
structure BenchmarkResult where
  components : List (String × Nat)
  extrinsic_time : Nat
  storage_root_time : Nat
  reads : Nat
  repeat_reads : Nat
  writes : Nat
  repeat_writes : Nat
  proof_size : Nat
deriving DecidableEq, Repr

/-- Modelled from the spec: a measurement batch
(`BenchmarkBatchSplitResults`): one pallet/instance/operation's repeated
samples, split into time samples and db samples. -/
structure BenchmarkBatchSplitResults where
  pallet : String
  instanceName : String
  benchmark : String
  time_results : List BenchmarkResult
  db_results : List BenchmarkResult
deriving DecidableEq, Repr

/-- Modelled from the spec: a declared parameter of an operation together
with the classifier's verdict on whether it was actually varied. -/
structure Component where
  name : String
  is_used : Bool
deriving DecidableEq, Repr

/-- Modelled from the spec: fitted sensitivity of one metric to one
parameter (a name, a slope and an error bound). -/
structure ComponentSlope where
  name : String
  slope : Int
  error : Int
deriving DecidableEq, Repr

/-- Modelled from the spec: one operation's fitted model, ready for
rendering (`BenchmarkData` in the crate's `utils` module). -/
structure BenchmarkData where
  name : String
  components : List Component
  base_weight : Int
  component_weight : List ComponentSlope
  base_reads : Int
  component_reads : List ComponentSlope
  base_writes : Int
  component_writes : List ComponentSlope
deriving DecidableEq, Repr

/-- One step of first-occurrence deduplication: append the element when it
is not yet present. -/
def firstOccStep {α : Type} [DecidableEq α] (ks : List α) (x : α) : List α :=
  if x ∈ ks then ks else ks ++ [x]

/-- First-occurrence deduplication: keeps each element's first occurrence,
in order of first appearance.  This is the order contract the spec imposes
both on group iteration and on component listing. -/
def firstOcc {α : Type} [DecidableEq α] (l : List α) : List α :=
  l.foldl firstOccStep []

/-- Parameter names appearing across a list of samples, in sample order
then component order (duplicates retained; `firstOcc` is applied by the
classifier). -/
def allParamNames (rs : List BenchmarkResult) : List String :=
  (rs.map (fun r => r.components.map Prod.fst)).flatten

/-- Values that a given parameter takes across the samples (one entry per
sample that declares the parameter). -/
def paramValues (rs : List BenchmarkResult) (nm : String) : List Nat :=
  rs.filterMap (fun r => (r.components.find? (fun p => p.1 == nm)).map Prod.snd)

/-- Boolean test: does the list contain two different values? -/
def hasTwoDistinct (l : List Nat) : Bool :=
  l.any (fun v => l.any (fun w => w != v))

/-- Modelled from the spec: the Component Classifier.  A parameter is
"used" iff at least two samples assign it different integer values;
parameters are listed in the order their names first appear across the
samples. -/
def classify (rs : List BenchmarkResult) : List Component :=
  (firstOcc (allParamNames rs)).map
    (fun nm => { name := nm, is_used := hasTwoDistinct (paramValues rs nm) })

/-- Modelled from the spec: the Cost Model Fitter's output for one metric:
a base cost, one linear slope per used parameter, and an error bound. -/
structure AnalysisResult where
  base : Int
  slopes : List (String × Int)
  error : Int
deriving DecidableEq, Repr

/-- Sample points (parameter value, metric value) for one parameter. -/
def paramPoints (rs : List BenchmarkResult) (sel : BenchmarkResult → Nat)
    (nm : String) : List (Int × Int) :=
  rs.filterMap (fun r =>
    (r.components.find? (fun p => p.1 == nm)).map
      (fun p => ((p.2 : Int), (sel r : Int))))

/-- Least-squares slope of a list of points, with integer (truncating)
division; exact whenever the points lie exactly on a line. -/
def lsqSlope (pts : List (Int × Int)) : Int :=
  let n : Int := pts.length
  let sx := (pts.map Prod.fst).sum
  let sy := (pts.map Prod.snd).sum
  let sxy := (pts.map (fun p => p.1 * p.2)).sum
  let sxx := (pts.map (fun p => p.1 * p.1)).sum
  (n * sxy - sx * sy) / (n * sxx - sx * sx)

/-- Modelled from the spec: the Cost Model Fitter (an external
collaborator consumed through `AnalysisChoice`).  It fits, for one metric
selected by `sel`, a base cost plus a per-used-parameter linear slope,
with an error bound; values are integral, as in the consuming code.  The
error bound is the largest absolute residual of the fit (the spec fixes
only that an error bound is produced). -/
def analyze (rs : List BenchmarkResult) (sel : BenchmarkResult → Nat) :
    AnalysisResult :=
  let usedNames :=
    (firstOcc (allParamNames rs)).filter
      (fun nm => hasTwoDistinct (paramValues rs nm))
  let slopes := usedNames.map (fun nm => (nm, lsqSlope (paramPoints rs sel nm)))
  let n : Int := rs.length
  let sy : Int := (rs.map (fun r => (sel r : Int))).sum
  let sxTotal : Int :=
    (slopes.map (fun s => s.2 * ((paramPoints rs sel s.1).map Prod.fst).sum)).sum
  let base := if n = 0 then 0 else (sy - sxTotal) / n
  let residual (r : BenchmarkResult) : Int :=
    ((sel r : Int) - (base +
      (slopes.map (fun s =>
        s.2 * (((r.components.find? (fun p => p.1 == s.1)).map
          (fun p => (p.2 : Int))).getD 0))).sum)).natAbs
  { base := base
    slopes := slopes
    error := (rs.map residual).foldr max 0 }

/-- Time metric selector (extrinsic execution time). -/
def extrinsicSel (r : BenchmarkResult) : Nat := r.extrinsic_time

/-- Storage reads selector. -/
def readsSel (r : BenchmarkResult) : Nat := r.reads

/-- Storage writes selector. -/
def writesSel (r : BenchmarkResult) : Nat := r.writes

/-- Modelled from the spec: process one batch into a rendered operation
report.  The time metric's base and slopes are multiplied by the fixed
constant 1000; storage read/write counts are passed through unscaled. -/
def get_benchmark_data (b : BenchmarkBatchSplitResults) : BenchmarkData :=
  let t := analyze b.time_results extrinsicSel
  let r := analyze b.db_results readsSel
  let w := analyze b.db_results writesSel
  { name := b.benchmark
    components := classify b.time_results
    base_weight := t.base * 1000
    component_weight :=
      t.slopes.map (fun s => { name := s.1, slope := s.2 * 1000, error := t.error * 1000 })
    base_reads := r.base
    component_reads :=
      r.slopes.map (fun s => { name := s.1, slope := s.2, error := r.error })
    base_writes := w.base
    component_writes :=
      w.slopes.map (fun s => { name := s.1, slope := s.2, error := w.error }) }

/-- Grouping key of a batch: the (pallet, instance) string pair. -/
def batchKey (b : BenchmarkBatchSplitResults) : String × String :=
  (b.pallet, b.instanceName)

/-- Append one operation report under its key, keeping first-occurrence
insertion order of groups and appending within an existing group. -/
def insertReport (key : String × String) (d : BenchmarkData) :
    List ((String × String) × List BenchmarkData) →
    List ((String × String) × List BenchmarkData)
  | [] => [(key, [d])]
  | (k, ds) :: rest =>
    if k = key then (k, ds ++ [d]) :: rest else (k, ds) :: insertReport key d rest

/-- Modelled from the spec: the Result Grouper.  Groups a flat list of
measurement batches by the (pallet, instance) pair, preserving the order
in which each pair first occurs and, within a group, the order in which
the batches appeared. -/
def map_results_pure (bs : List BenchmarkBatchSplitResults) :
    List ((String × String) × List BenchmarkData) :=
  bs.foldl (fun acc b => insertReport (batchKey b) (get_benchmark_data b) acc) []

/-- Possible failures of the pipeline, by kind (configuration /
analysis / input-output); template-render failures are wrapped into the
input-output kind. -/
inductive WErr where
  | ioErr : String → WErr
  | analysisErr : String → WErr
  | configErr : String → WErr
deriving DecidableEq, Repr

instance {ε α : Type} [DecidableEq ε] [DecidableEq α] : DecidableEq (Except ε α) :=
  fun a b =>
    match a, b with
    | .error e, .error f =>
      if h : e = f then isTrue (by rw [h])
      else isFalse (by intro hh; injection hh; exact h (by assumption))
    | .error _, .ok _ => isFalse (by intro h; exact Except.noConfusion h)
    | .ok _, .error _ => isFalse (by intro h; exact Except.noConfusion h)
    | .ok x, .ok y =>
      if h : x = y then isTrue (by rw [h])
      else isFalse (by intro hh; injection hh; exact h (by assumption))

/-- Modelled from the spec: the selectable fitting strategies. -/
inductive AnalysisChoice where
  | minSquares
  | medianSlopes
  | maxEst
deriving DecidableEq, Repr

/-- Modelled from the spec: `map_results` with its failure mode: the
fitting step fails with an `AnalysisError` on a degenerate sample set
(a batch with no samples); otherwise it is the pure grouping transform.
The fitting strategy is treated as the external collaborator the spec
declares it to be; the modelled fitter is the linear least-squares fit. -/
def map_results (bs : List BenchmarkBatchSplitResults) (_choice : AnalysisChoice) :
    Except WErr (List ((String × String) × List BenchmarkData)) :=
  if bs.any (fun b => b.time_results.isEmpty || b.db_results.isEmpty)
  then .error (.analysisErr "degenerate sample set")
  else .ok (map_results_pure bs)

-- Embedding of the `map_results_works` test fixture (writer.rs, test module):
-- five samples where the varied parameter takes the values 0..4 and the
-- parameter z is always 0, every metric being base + slope * i.

/-- Embedding of the test fixture builder `test_data` from writer.rs: the
sample list. -/
def testSamples (param : String) (base slope : Nat) : List BenchmarkResult :=
  (List.range 5).map (fun i =>
    { components := [(param, i), ("z", 0)]
      extrinsic_time := base + slope * i
      storage_root_time := base + slope * i
      reads := base + slope * i
      repeat_reads := 0
      writes := base + slope * i
      repeat_writes := 0
      proof_size := 0 })

/-- Embedding of the test fixture builder `test_data` from writer.rs. -/
def test_data (pallet benchmark param : String) (base slope : Nat) :
    BenchmarkBatchSplitResults :=
  { pallet := pallet ++ "_pallet"
    instanceName := "instance"
    benchmark := benchmark ++ "_benchmark"
    time_results := testSamples param base slope
    db_results := testSamples param base slope }


-- Artifact naming (writer.rs lines 88-101 / html_writer.rs lines 72-85).

/-- Lower-casing of one ASCII letter (anything else is kept). -/
def lowerChar (c : Char) : Char :=
  match c with
  | 'A' => 'a' | 'B' => 'b' | 'C' => 'c' | 'D' => 'd' | 'E' => 'e' | 'F' => 'f'
  | 'G' => 'g' | 'H' => 'h' | 'I' => 'i' | 'J' => 'j' | 'K' => 'k' | 'L' => 'l'
  | 'M' => 'm' | 'N' => 'n' | 'O' => 'o' | 'P' => 'p' | 'Q' => 'q' | 'R' => 'r'
  | 'S' => 's' | 'T' => 't' | 'U' => 'u' | 'V' => 'v' | 'W' => 'w' | 'X' => 'x'
  | 'Y' => 'y' | 'Z' => 'z' | other => other

/-- Snake-case expansion of one character: modelled from the spec's
"instance in snake case" naming rule and its naming example (the
inflector crate is an external collaborator): a space or dash becomes an
underscore, an upper-case letter is lower-cased with an underscore
inserted before it unless it starts the identifier (to_snake_case adds
no leading underscore, so instance "A" snake-cases to "a"), anything else
is kept. -/
def snakeChar (isFirst : Bool) (c : Char) : List Char :=
  if c == '-' || c == ' ' then ['_']
  else if c.isUpper then (if isFirst then [lowerChar c] else ['_', lowerChar c])
  else [c]

/-- Snake-case conversion of an identifier, character by character; the
flag records whether the current character is the identifier's first. -/
def snakeCaseAux : Bool → List Char → List Char
  | _, [] => []
  | isFirst, c :: cs => snakeChar isFirst c ++ snakeCaseAux false cs

/-- Snake-case conversion of an identifier. -/
def snakeCase (s : String) : String :=
  String.mk (snakeCaseAux true s.data)

/-- Split a file name at its last dot: returns the stem and the part after
the last dot when a dot exists. -/
def splitAtLastDot : List Char → Option (List Char × List Char)
  | [] => none
  | c :: cs =>
    match splitAtLastDot cs with
    | some (st, ex) => some (c :: st, ex)
    | none => if c == '.' then some ([], cs) else none

/-- Embedding of `PathBuf::set_extension` on a single file-name component:
if the name has an extension (a last dot not in leading position), the
extension is replaced; otherwise a dot and the extension are appended. -/
def setExt (name ext : String) : String :=
  match splitAtLastDot name.data with
  | some (stem, _) =>
    if stem.isEmpty then String.mk (name.data ++ '.' :: ext.data)
    else String.mk (stem ++ '.' :: ext.data)
  | none => String.mk (name.data ++ '.' :: ext.data)

/-- Embedding of the file-name computation of writer.rs lines 92-100 (and
the identical html_writer.rs lines 76-84): when some other group shares
the pallet with a different instance, the name is
pallet ++ "_" ++ snake-cased instance, otherwise just the pallet; then the
mode's extension is set. -/
def outputFileName (allKeys : List (String × String)) (key : String × String)
    (ext : String) : String :=
  let base :=
    if allKeys.any (fun k => k.1 == key.1 && k.2 != key.2)
    then key.1 ++ "_" ++ snakeCase key.2
    else key.1
  setExt base ext

-- Explicit models of the ambient effects: file system, clock, argv.

/-- Association-list update: set the entry for a key, keeping list order;
a fresh key is appended. -/
def setEntry : List (String × String) → String → String → List (String × String)
  | [], p, c => [(p, c)]
  | e :: es, p, c => if e.1 = p then (p, c) :: es else e :: setEntry es p c

/-- A file system: a set of directory paths and a list of files with their
contents. -/
structure FS where
  dirs : List String
  files : List (String × String)
deriving DecidableEq, Repr

/-- Directory test (`PathBuf::is_dir`). -/
def FS.isDir (fs : FS) (p : String) : Bool := fs.dirs.contains p

/-- Read a file fully into memory (`fs::read_to_string` /
`File::open` + `read_to_string`); `none` when unreadable. -/
def FS.read (fs : FS) (p : String) : Option String :=
  (fs.files.find? (fun e => e.1 == p)).map Prod.snd

/-- Create/truncate a file and write contents (`fs::File::create` followed
by writing). -/
def FS.write (fs : FS) (p c : String) : FS :=
  ⟨fs.dirs, setEntry fs.files p c⟩

/-- Ambient process state: a clock yielding the formatted UTC date at each
successive read, the process argument list, and the number of clock reads
already performed. -/
structure World where
  clock : Nat → String
  argv : List String
  tick : Nat

/-- The crate version string baked into the binary
(CARGO_PKG_VERSION). -/
def VERSION : String := "substrate-version"

/-- The built-in default template (include_str of template.hbs; its text
is opaque to this development). -/
def TEMPLATE : String := "builtin-template"

/-- Path of the report-mode template file that html_writer.rs opens
unconditionally (line 50). -/
def htmlTemplatePath : String := "./html_template.hbs"

/-- Embedding of the `BenchmarkCmd` configuration surface recognized by
the writers: optional template path, optional header path, optional
analysis-strategy name. -/
structure BenchmarkCmd where
  template : Option String
  header : Option String
  analysis : Option String
deriving DecidableEq, Repr

/-- Modelled from the spec: the data extracted from the command for the
render record (`CmdData`); the writers derive it from the command via
`try_into` to record which analysis function is used. -/
structure CmdData where
  analysis : String
deriving DecidableEq, Repr

/-- Conversion of the command into its render-record data. -/
def cmdDataOf (cmd : BenchmarkCmd) : CmdData :=
  { analysis := cmd.analysis.getD "min-squares" }

/-- Embedding of `cmd.analysis_choice()`: resolve the fitting strategy
from the configuration, failing on an unrecognized name. -/
def analysisChoiceOf (cmd : BenchmarkCmd) : Except WErr AnalysisChoice :=
  match cmd.analysis with
  | none => .ok .minSquares
  | some "min-squares" => .ok .minSquares
  | some "median-slopes" => .ok .medianSlopes
  | some "max" => .ok .maxEst
  | some s => .error (.configErr s)

/-- Embedding of writer.rs lines 53-57: use the custom template when the
configuration provides one (read fully, an input-output error when
unreadable), the built-in default otherwise. -/
def templateOf (fs : FS) (cmd : BenchmarkCmd) : Except WErr String :=
  match cmd.template with
  | some tf =>
    match fs.read tf with
    | some t => .ok t
    | none => .error (.ioErr ("cannot read " ++ tf))
  | none => .ok TEMPLATE

/-- Embedding of writer.rs lines 59-66: read the optional header text the
same way; absent means the empty string. -/
def headerOf (fs : FS) (cmd : BenchmarkCmd) : Except WErr String :=
  match cmd.header with
  | some hf =>
    match fs.read hf with
    | some t => .ok t
    | none => .error (.ioErr ("cannot read " ++ hf))
  | none => .ok ""

/-- Embedding of the `TemplateData` struct of writer.rs (the render record
of source-code mode). -/
structure TemplateData where
  args : List String
  date : String
  version : String
  pallet : String
  instanceName : String
  header : String
  cmd : CmdData
  benchmarks : List BenchmarkData
deriving DecidableEq, Repr

/-- Embedding of the `TemplateData` struct of html_writer.rs (the render
record of report mode); it has no header field. -/
structure HtmlTemplateData where
  args : List String
  date : String
  version : String
  pallet : String
  instanceName : String
  cmd : CmdData
  benchmarks : List BenchmarkData
deriving DecidableEq, Repr

/-- Render record assembled for one group in source-code mode
(writer.rs lines 103-112). -/
def mkRecord (args : List String) (date header : String) (cd : CmdData)
    (key : String × String) (results : List BenchmarkData) : TemplateData :=
  { args := args, date := date, version := VERSION, pallet := key.1,
    instanceName := key.2, header := header, cmd := cd, benchmarks := results }

/-- Render record assembled for one group in report mode
(html_writer.rs lines 87-95). -/
def mkHtmlRecord (args : List String) (date : String) (cd : CmdData)
    (key : String × String) (results : List BenchmarkData) : HtmlTemplateData :=
  { args := args, date := date, version := VERSION, pallet := key.1,
    instanceName := key.2, cmd := cd, benchmarks := results }

/-- The output path one group resolves to: when the supplied path is a
directory the computed file name is appended, otherwise the supplied path
itself is used. -/
def resolvedPath (fs : FS) (path ext : String)
    (allKeys : List (String × String)) (key : String × String) : String :=
  if fs.isDir path then path ++ "/" ++ outputFileName allKeys key ext else path

/-- Observable outcome of a writer run: the final file system, the render
records passed to the template engine in order, the (path, contents)
pairs successfully written in order, and the overall result. -/
structure LoopOut (δ : Type) where
  fs : FS
  records : List δ
  writes : List (String × String)
  result : Except WErr Unit
deriving DecidableEq, Repr

/-- Embedding of the per-group loop shared by writer.rs lines 88-118 and
html_writer.rs lines 72-101: resolve the group's output path, create
(truncate) the file, render the record into it; a render failure is
wrapped into an input-output error and stops the run. -/
def writeLoop {δ : Type} (render : String → δ → Except String String)
    (tpl path ext : String) (allKeys : List (String × String))
    (mk : (String × String) → List BenchmarkData → δ) :
    FS → List ((String × String) × List BenchmarkData) → LoopOut δ
  | fs, [] => ⟨fs, [], [], .ok ()⟩
  | fs, (key, results) :: rest =>
    let fp := if fs.isDir path then path ++ "/" ++ outputFileName allKeys key ext
              else path
    let d := mk key results
    let fs1 := fs.write fp ""
    match render tpl d with
    | .error e => ⟨fs1, [d], [], .error (.ioErr e)⟩
    | .ok text =>
      let out := writeLoop render tpl path ext allKeys mk (fs1.write fp text) rest
      ⟨out.fs, d :: out.records, (fp, text) :: out.writes, out.result⟩

/-- Embedding of `write_results` of writer.rs (source-code mode).  The
template engine is the injected `render` capability; the file system and
the ambient process state are explicit.  The generation metadata (date,
argument list, version) is captured once, before the per-group loop, as in
lines 68-72. -/
def write_results (render : String → TemplateData → Except String String)
    (w : World) (fs : FS) (batches : List BenchmarkBatchSplitResults)
    (path : String) (cmd : BenchmarkCmd) : LoopOut TemplateData :=
  match templateOf fs cmd with
  | .error e => ⟨fs, [], [], .error e⟩
  | .ok tpl =>
  match headerOf fs cmd with
  | .error e => ⟨fs, [], [], .error e⟩
  | .ok header_text =>
  let date := w.clock w.tick
  let args := w.argv
  let cmd_data := cmdDataOf cmd
  match analysisChoiceOf cmd with
  | .error e => ⟨fs, [], [], .error e⟩
  | .ok choice =>
  match map_results batches choice with
  | .error e => ⟨fs, [], [], .error e⟩
  | .ok all_results =>
    writeLoop render tpl path "rs" (all_results.map Prod.fst)
      (mkRecord args date header_text cmd_data) fs all_results

/-- Observable outcome of a report-mode run; `reads` lists the paths of
the files the function read. -/
structure HtmlOut where
  fs : FS
  records : List HtmlTemplateData
  writes : List (String × String)
  reads : List String
  result : Except WErr Unit
deriving DecidableEq, Repr

/-- Embedding of `write_results` of html_writer.rs (report mode).  The
template is always read from `./html_template.hbs` (lines 50-52); the
configured template and header are never consulted, and the render record
carries no header text. -/
def html_write_results (render : String → HtmlTemplateData → Except String String)
    (w : World) (fs : FS) (batches : List BenchmarkBatchSplitResults)
    (path : String) (cmd : BenchmarkCmd) : HtmlOut :=
  match fs.read htmlTemplatePath with
  | none => ⟨fs, [], [], [htmlTemplatePath], .error (.ioErr ("cannot read " ++ htmlTemplatePath))⟩
  | some tpl =>
  let date := w.clock w.tick
  let args := w.argv
  let cmd_data := cmdDataOf cmd
  match analysisChoiceOf cmd with
  | .error e => ⟨fs, [], [], [htmlTemplatePath], .error e⟩
  | .ok choice =>
  match map_results batches choice with
  | .error e => ⟨fs, [], [], [htmlTemplatePath], .error e⟩
  | .ok all_results =>
    let out := writeLoop render tpl path "html" (all_results.map Prod.fst)
      (mkHtmlRecord args date cmd_data) fs all_results
    ⟨out.fs, out.records, out.writes, [htmlTemplatePath], out.result⟩

/-- Association lookup over the grouped results. -/
def lookupGroup (groups : List ((String × String) × List BenchmarkData))
    (k : String × String) : Option (List BenchmarkData) :=
  (groups.find? (fun kv => decide (kv.1 = k))).map Prod.snd

-- Concrete fixtures for witnesses and counterexamples.

/-- A single sample with one constant parameter and constant metrics. -/
def sampleOf (v : Nat) : BenchmarkResult :=
  { components := [("x", 0)], extrinsic_time := v, storage_root_time := v,
    reads := v, repeat_reads := 0, writes := v, repeat_writes := 0, proof_size := 0 }

/-- A one-sample batch for a given pallet and instance. -/
def batchOf (p i : String) : BenchmarkBatchSplitResults :=
  { pallet := p, instanceName := i, benchmark := "op",
    time_results := [sampleOf 7], db_results := [sampleOf 7] }

/-- A concrete ambient world whose clock changes after the first read. -/
def wTest : World :=
  { clock := fun n => if n = 0 then "2026-10-12" else "2026-10-13",
    argv := ["bench"], tick := 0 }

/-- The all-defaults command. -/
def cmdPlain : BenchmarkCmd := { template := none, header := none, analysis := none }

/-- A file system whose only entry is the plain output file "out". -/
def fsSingle : FS := { dirs := [], files := [("out", "OLD")] }

/-- A file system with one output directory "d". -/
def fsDir : FS := { dirs := ["d"], files := [] }

/-- A file system holding only a user template file. -/
def fsTplOnly : FS := { dirs := [], files := [("mytpl.hbs", "T")] }

/-- A command configuring that user template file. -/
def cmdWithTpl : BenchmarkCmd :=
  { template := some "mytpl.hbs", header := none, analysis := none }

/-- A render capability failing exactly on pallet "p2". -/
def renderFailP2 : String → TemplateData → Except String String :=
  fun _ d => if d.pallet = "p2" then Except.error "boom" else Except.ok "ONE"

-- Supporting lemmas.

lemma hasTwoDistinct_eq (l : List Nat) :
    hasTwoDistinct l = decide (∃ v ∈ l, ∃ w ∈ l, w ≠ v) := by
  rw [Bool.eq_iff_iff]
  simp [hasTwoDistinct, List.any_eq_true]

/-- Under the classifier, the recorded names are exactly the
first-occurrence list of declared parameter names. -/
lemma classify_names (rs : List BenchmarkResult) :
    (classify rs).map Component.name = firstOcc (allParamNames rs) := by
  unfold classify
  generalize firstOcc (allParamNames rs) = l
  induction l with
  | nil => rfl
  | cons x xs ih => simpa using ih

lemma classify_used (rs : List BenchmarkResult) :
    (classify rs).map Component.is_used =
      (firstOcc (allParamNames rs)).map
        (fun nm => decide (∃ v ∈ paramValues rs nm, ∃ w ∈ paramValues rs nm, w ≠ v)) := by
  unfold classify
  generalize firstOcc (allParamNames rs) = l
  induction l with
  | nil => rfl
  | cons x xs ih => simp [hasTwoDistinct_eq, ih]


lemma insertReport_keys (key : String × String) (d : BenchmarkData)
    (acc : List ((String × String) × List BenchmarkData)) :
    (insertReport key d acc).map Prod.fst = firstOccStep (acc.map Prod.fst) key := by
  unfold firstOccStep
  induction acc with
  | nil => simp [insertReport]
  | cons e rest ih =>
    obtain ⟨k0, ds⟩ := e
    by_cases h : k0 = key
    · rw [h]
      simp [insertReport]
    · simp only [insertReport, if_neg h, List.map_cons, ih]
      have hk : ¬ key = k0 := fun hh => h hh.symm
      by_cases hmem : key ∈ rest.map Prod.fst
      · simp [hmem, hk]
      · simp [hmem, hk]

lemma insertReport_lookup (key : String × String) (d : BenchmarkData)
    (acc : List ((String × String) × List BenchmarkData)) (k : String × String) :
    lookupGroup (insertReport key d acc) k =
      (if k = key then some (((lookupGroup acc k).getD []) ++ [d])
       else lookupGroup acc k) := by
  induction acc with
  | nil =>
    by_cases h : k = key
    · rw [h]
      simp [insertReport, lookupGroup]
    · have h2 : ¬ key = k := fun hh => h hh.symm
      simp [insertReport, lookupGroup, h, h2]
  | cons e rest ih =>
    obtain ⟨k0, ds⟩ := e
    by_cases h : k0 = key
    · by_cases hk : k = key
      · have e1 : k0 = k := h.trans hk.symm
        simp [insertReport, lookupGroup, h, hk, e1]
      · have e2 : decide (key = k) = false :=
          decide_eq_false (fun hh => hk hh.symm)
        simp [insertReport, lookupGroup, h, hk, e2]
    · by_cases hk : k = k0
      · have e3 : decide (k0 = k) = true := decide_eq_true hk.symm
        have hkey : ¬ k = key := fun hh => h (hk.symm.trans hh)
        simp [insertReport, lookupGroup, h, hkey, e3]
      · have e4 : decide (k0 = k) = false := decide_eq_false (fun hh => hk hh.symm)
        simp only [insertReport, if_neg h, lookupGroup, List.find?_cons, e4]
        simpa [lookupGroup] using ih

lemma map_results_pure_keys_from (bs : List BenchmarkBatchSplitResults) :
    ∀ acc,
      ((bs.foldl (fun a b => insertReport (batchKey b) (get_benchmark_data b) a) acc).map
        Prod.fst)
      = bs.foldl (fun ks b => firstOccStep ks (batchKey b)) (acc.map Prod.fst) := by
  induction bs with
  | nil => intro acc; rfl
  | cons b bs ih =>
    intro acc
    simp only [List.foldl_cons]
    rw [ih, insertReport_keys]

/-- The group keys of the grouped results are the first occurrences of the
batch keys, in input order. -/
lemma map_results_pure_keys (bs : List BenchmarkBatchSplitResults) :
    (map_results_pure bs).map Prod.fst = firstOcc (bs.map batchKey) := by
  unfold map_results_pure firstOcc
  rw [map_results_pure_keys_from, List.foldl_map]
  rfl

lemma foldl_firstOcc_nodup {α : Type} [DecidableEq α] (l : List α) :
    ∀ acc : List α, acc.Nodup → (l.foldl firstOccStep acc).Nodup := by
  induction l with
  | nil => intro acc h; exact h
  | cons x xs ih =>
    intro acc h
    simp only [List.foldl_cons, firstOccStep]
    by_cases hm : x ∈ acc
    · rw [if_pos hm]; exact ih acc h
    · rw [if_neg hm]
      exact ih _ (by simp [List.nodup_append, h, hm])

lemma firstOcc_nodup {α : Type} [DecidableEq α] (l : List α) : (firstOcc l).Nodup :=
  foldl_firstOcc_nodup l [] (by simp)

lemma map_results_pure_lookup_from (bs : List BenchmarkBatchSplitResults) :
    ∀ acc (k : String × String),
      lookupGroup
        (bs.foldl (fun a b => insertReport (batchKey b) (get_benchmark_data b) a) acc) k =
      (match lookupGroup acc k with
       | some ds =>
         some (ds ++ (bs.filter (fun b => decide (batchKey b = k))).map get_benchmark_data)
       | none =>
         if (bs.filter (fun b => decide (batchKey b = k))).isEmpty then none
         else some ((bs.filter (fun b => decide (batchKey b = k))).map get_benchmark_data)) := by
  induction bs with
  | nil =>
    intro acc k
    cases h : lookupGroup acc k <;> simp [h]
  | cons b bs ih =>
    intro acc k
    simp only [List.foldl_cons]
    rw [ih, insertReport_lookup]
    by_cases hk : batchKey b = k
    · have hd : decide (batchKey b = k) = true := decide_eq_true hk
      have hk2 : k = batchKey b := hk.symm
      rw [if_pos hk2]
      simp only [List.filter_cons, hd, if_pos]
      cases h : lookupGroup acc k
      · simp [h]
      · simp [h]
    · have hd : decide (batchKey b = k) = false := decide_eq_false hk
      have hk2 : ¬ k = batchKey b := fun hh => hk hh.symm
      rw [if_neg hk2]
      simp only [List.filter_cons, hd]
      rfl

/-- The entry a key finds in the grouped results is exactly the reports of
the batches carrying that key, in input order; keys with no batch have no
entry. -/
lemma map_results_pure_lookup (bs : List BenchmarkBatchSplitResults)
    (k : String × String) :
    lookupGroup (map_results_pure bs) k =
      (if (bs.filter (fun b => decide (batchKey b = k))).isEmpty then none
       else some ((bs.filter (fun b => decide (batchKey b = k))).map get_benchmark_data)) := by
  unfold map_results_pure
  rw [map_results_pure_lookup_from]
  simp [lookupGroup]

/-- C1: for the three test batches (pallet first/first/second, operations
first/second/first, parameters a/b/c, bases 10/9/3, slopes 3/2/4, each
with instance "instance" and five samples where the varied parameter takes
the values 0..4), the grouping-and-analysis step returns for pallet
"first_pallet" exactly the two operations "first_benchmark" (base_weight
10000, time slope 3000, reads/writes base 10 with slope 3) and
"second_benchmark" (base_weight 9000, time slope 2000, reads/writes base 9
with slope 2), and for pallet "second_pallet" exactly one operation with
base_weight 3000 and time slope 4000. -/
theorem end_to_end_example :
    map_results
      [test_data "first" "first" "a" 10 3,
       test_data "first" "second" "b" 9 2,
       test_data "second" "first" "c" 3 4] AnalysisChoice.minSquares =
    .ok [(("first_pallet", "instance"),
      [{ name := "first_benchmark"
         components := [⟨"a", true⟩, ⟨"z", false⟩]
         base_weight := 10000
         component_weight := [⟨"a", 3000, 0⟩]
         base_reads := 10
         component_reads := [⟨"a", 3, 0⟩]
         base_writes := 10
         component_writes := [⟨"a", 3, 0⟩] },
       { name := "second_benchmark"
         components := [⟨"b", true⟩, ⟨"z", false⟩]
         base_weight := 9000
         component_weight := [⟨"b", 2000, 0⟩]
         base_reads := 9
         component_reads := [⟨"b", 2, 0⟩]
         base_writes := 9
         component_writes := [⟨"b", 2, 0⟩] }]),
     (("second_pallet", "instance"),
      [{ name := "first_benchmark"
         components := [⟨"c", true⟩, ⟨"z", false⟩]
         base_weight := 3000
         component_weight := [⟨"c", 4000, 0⟩]
         base_reads := 3
         component_reads := [⟨"c", 4, 0⟩]
         base_writes := 3
         component_writes := [⟨"c", 4, 0⟩] }])] := by decide

/-- C2: the grouping step returns exactly one entry per distinct
(pallet, instance) pair occurring among the batches — the group keys are
the first occurrences of the batch keys in input order and contain no
duplicate — and the entry found for a key holds precisely the operation
reports of the batches carrying that key, in the order those batches
appeared; a key no batch carries has no entry. -/
theorem grouping_correctness (bs : List BenchmarkBatchSplitResults) :
    ((map_results_pure bs).map Prod.fst = firstOcc (bs.map batchKey)) ∧
    ((map_results_pure bs).map Prod.fst).Nodup ∧
    (∀ k : String × String,
      lookupGroup (map_results_pure bs) k =
        (if (bs.filter (fun b => decide (batchKey b = k))).isEmpty then none
         else some ((bs.filter (fun b => decide (batchKey b = k))).map
           get_benchmark_data))) := by
  refine ⟨map_results_pure_keys bs, ?_, map_results_pure_lookup bs⟩
  rw [map_results_pure_keys bs]
  exact firstOcc_nodup _

/-- C3: the component classifier lists parameters in the order their names
first appear across the samples, marks a parameter as used exactly when at
least two samples assign it different integer values, and in particular
classifies the test samples (parameter a taking 0..4, parameter z always
0) as a used and z unused, in that order. -/
theorem component_classification :
    (∀ rs : List BenchmarkResult,
      (classify rs).map Component.name = firstOcc (allParamNames rs) ∧
      (classify rs).map Component.is_used =
        (firstOcc (allParamNames rs)).map
          (fun nm =>
            decide (∃ v ∈ paramValues rs nm, ∃ w ∈ paramValues rs nm, w ≠ v))) ∧
    classify (testSamples "a" 10 3) = [⟨"a", true⟩, ⟨"z", false⟩] := by
  refine ⟨fun rs => ⟨classify_names rs, classify_used rs⟩, by decide⟩

/-- C4: in every operation report, the time-metric fields are the fitted
base and slopes multiplied by exactly 1000, while the storage read and
write fields are the fitted values unscaled. -/
theorem scaling_invariant (b : BenchmarkBatchSplitResults) :
    (get_benchmark_data b).base_weight =
      (analyze b.time_results extrinsicSel).base * 1000 ∧
    (get_benchmark_data b).component_weight =
      (analyze b.time_results extrinsicSel).slopes.map
        (fun s => ⟨s.1, s.2 * 1000, (analyze b.time_results extrinsicSel).error * 1000⟩) ∧
    (get_benchmark_data b).base_reads = (analyze b.db_results readsSel).base ∧
    (get_benchmark_data b).component_reads =
      (analyze b.db_results readsSel).slopes.map
        (fun s => ⟨s.1, s.2, (analyze b.db_results readsSel).error⟩) ∧
    (get_benchmark_data b).base_writes = (analyze b.db_results writesSel).base ∧
    (get_benchmark_data b).component_writes =
      (analyze b.db_results writesSel).slopes.map
        (fun s => ⟨s.1, s.2, (analyze b.db_results writesSel).error⟩) :=
  ⟨rfl, rfl, rfl, rfl, rfl, rfl⟩

-- Artifact-naming lemmas (C5).

lemma lowerChar_ne_dot (c : Char) (h : c ≠ '.') : lowerChar c ≠ '.' := by
  unfold lowerChar
  split <;> first | decide | assumption

lemma snakeChar_ne_dot (b : Bool) (c : Char) (h : c ≠ '.') :
    ∀ x ∈ snakeChar b c, x ≠ '.' := by
  intro x hx
  unfold snakeChar at hx
  by_cases h1 : c == '-' || c == ' '
  · rw [if_pos h1] at hx
    simp at hx
    rw [hx]; decide
  · rw [if_neg h1] at hx
    by_cases h2 : c.isUpper
    · rw [if_pos h2] at hx
      cases b with
      | false =>
        simp at hx
        rcases hx with hx | hx
        · rw [hx]; decide
        · rw [hx]; exact lowerChar_ne_dot c h
      | true =>
        simp at hx
        rw [hx]; exact lowerChar_ne_dot c h
    · rw [if_neg h2] at hx
      simp at hx
      rw [hx]; exact h

lemma snakeCaseAux_no_dot (cs : List Char) :
    ∀ (b : Bool), (∀ c ∈ cs, c ≠ '.') → ∀ x ∈ snakeCaseAux b cs, x ≠ '.' := by
  induction cs with
  | nil =>
    intro b _ x hx
    simp [snakeCaseAux] at hx
  | cons c cs ih =>
    intro b h x hx
    simp only [snakeCaseAux] at hx
    rcases List.mem_append.mp hx with hx | hx
    · exact snakeChar_ne_dot b c (h c (by simp)) x hx
    · exact ih false (fun c2 hc2 => h c2 (by simp [hc2])) x hx

lemma snakeCase_no_dot (s : String) (h : ∀ c ∈ s.data, c ≠ '.') :
    ∀ c ∈ (snakeCase s).data, c ≠ '.' := by
  intro c hc
  exact snakeCaseAux_no_dot s.data true h c hc

lemma splitAtLastDot_none (cs : List Char) (h : ∀ c ∈ cs, c ≠ '.') :
    splitAtLastDot cs = none := by
  induction cs with
  | nil => rfl
  | cons c cs ih =>
    have hc : c ≠ '.' := h c (by simp)
    have hrec : splitAtLastDot cs = none := ih (fun x hx => h x (by simp [hx]))
    simp [splitAtLastDot, hrec, hc]

lemma setExt_no_dot (s ext : String) (h : ∀ c ∈ s.data, c ≠ '.') :
    setExt s ext = s ++ "." ++ ext := by
  unfold setExt
  rw [splitAtLastDot_none s.data h]
  obtain ⟨sd⟩ := s
  obtain ⟨ed⟩ := ext
  show String.mk (sd ++ '.' :: ed) = String.mk ((sd ++ ['.']) ++ ed)
  exact congrArg String.mk (by simp)

/-- C5: when the output path is a directory, a group whose pallet also
appears with a different instance among the generated groups gets the file
name pallet ++ "_" ++ snake-cased instance plus the mode's extension,
and otherwise just the pallet plus the extension (for dot-free
identifiers, as pallet and instance names are); the resolved output path
in directory mode appends exactly that file name. -/
theorem artifact_naming (allKeys : List (String × String)) (pallet inst ext : String)
    (hp : ∀ c ∈ pallet.data, c ≠ '.') (hi : ∀ c ∈ inst.data, c ≠ '.') :
    (outputFileName allKeys (pallet, inst) ext =
      (if allKeys.any (fun k => k.1 == pallet && k.2 != inst)
       then pallet ++ "_" ++ snakeCase inst ++ "." ++ ext
       else pallet ++ "." ++ ext)) ∧
    (∀ (fs : FS) (path : String), fs.isDir path = true →
      resolvedPath fs path ext allKeys (pallet, inst) =
        path ++ "/" ++ outputFileName allKeys (pallet, inst) ext) := by
  constructor
  · unfold outputFileName
    cases h : allKeys.any (fun k => k.1 == pallet && k.2 != inst) with
    | false =>
      simp only [h, Bool.false_eq_true, if_false]
      exact setExt_no_dot _ _ hp
    | true =>
      simp only [h, if_true]
      apply setExt_no_dot
      intro c hc
      simp only [String.data_append, List.mem_append] at hc
      rcases hc with (hc | hc) | hc
      · exact hp c hc
      · have : c = '_' := by simpa using hc
        rw [this]; decide
      · exact snakeCase_no_dot inst hi c hc
  · intro fs path hdir
    simp [resolvedPath, hdir]

theorem artifact_naming_witness :
    outputFileName [("p", "A"), ("p", "B")] ("p", "A") "rs" = "p_a.rs" ∧
    outputFileName [("p", "A"), ("p", "B")] ("p", "B") "rs" = "p_b.rs" ∧
    outputFileName [("p", "i1"), ("p", "i2")] ("p", "i1") "rs" = "p_i1.rs" ∧
    outputFileName [("q", "inst")] ("q", "inst") "html" = "q.html" := by
  refine ⟨?_, ?_, ?_, ?_⟩
  · exact ((artifact_naming [("p", "A"), ("p", "B")] "p" "A" "rs"
      (by decide) (by decide)).1).trans (by decide)
  · exact ((artifact_naming [("p", "A"), ("p", "B")] "p" "B" "rs"
      (by decide) (by decide)).1).trans (by decide)
  · exact ((artifact_naming [("p", "i1"), ("p", "i2")] "p" "i1" "rs"
      (by decide) (by decide)).1).trans (by decide)
  · exact ((artifact_naming [("q", "inst")] "q" "inst" "html"
      (by decide) (by decide)).1).trans (by decide)

-- Metadata and header lemmas (C9, C10).

lemma writeLoop_records {δ : Type} (render : String → δ → Except String String)
    (tpl path ext : String) (allKeys : List (String × String))
    (mk : (String × String) → List BenchmarkData → δ) :
    ∀ (groups : List ((String × String) × List BenchmarkData)) (fs : FS),
      ∀ d ∈ (writeLoop render tpl path ext allKeys mk fs groups).records,
        ∃ g ∈ groups, d = mk g.1 g.2 := by
  intro groups
  induction groups with
  | nil =>
    intro fs d hd
    simp [writeLoop] at hd
  | cons g rest ih =>
    intro fs d hd
    obtain ⟨key, results⟩ := g
    simp only [writeLoop] at hd
    cases hr : render tpl (mk key results) with
    | error e =>
      rw [hr] at hd
      simp at hd
      exact ⟨(key, results), by simp, by simp [hd]⟩
    | ok text =>
      rw [hr] at hd
      simp only [List.mem_cons] at hd
      rcases hd with hd | hd
      · exact ⟨(key, results), by simp, by simp [hd]⟩
      · obtain ⟨g', hg', rfl⟩ := ih _ d hd
        exact ⟨g', by simp [hg'], rfl⟩

/-- C9: within one invocation, the generation metadata (date, argument
list, version) is captured once before the per-group loop, so every render
record of that invocation carries the identical date, args and version —
in both output modes, whatever the clock does afterwards. -/
theorem metadata_captured_once
    (renderS : String → TemplateData → Except String String)
    (renderH : String → HtmlTemplateData → Except String String)
    (w : World) (fs : FS) (batches : List BenchmarkBatchSplitResults)
    (path : String) (cmd : BenchmarkCmd) :
    ((write_results renderS w fs batches path cmd).records.map
        (fun r => (r.args, r.date, r.version))
      = List.replicate (write_results renderS w fs batches path cmd).records.length
          (w.argv, w.clock w.tick, VERSION)) ∧
    ((html_write_results renderH w fs batches path cmd).records.map
        (fun r => (r.args, r.date, r.version))
      = List.replicate (html_write_results renderH w fs batches path cmd).records.length
          (w.argv, w.clock w.tick, VERSION)) := by
  constructor
  · unfold write_results
    cases htpl : templateOf fs cmd with
    | error e => simp [htpl]
    | ok tpl =>
      cases hh : headerOf fs cmd with
      | error e => simp [htpl, hh]
      | ok hdr =>
        cases hc : analysisChoiceOf cmd with
        | error e => simp [htpl, hh, hc]
        | ok choice =>
          cases hm : map_results batches choice with
          | error e => simp [htpl, hh, hc, hm]
          | ok groups =>
            simp only [htpl, hh, hc, hm]
            refine List.eq_replicate_iff.mpr ⟨by simp, ?_⟩
            intro x hx
            obtain ⟨r, hr, rfl⟩ := List.mem_map.1 hx
            obtain ⟨g, _, hrg⟩ := writeLoop_records _ _ _ _ _ _ groups fs r hr
            rw [hrg]
            rfl
  · unfold html_write_results
    cases htpl : fs.read htmlTemplatePath with
    | none => simp [htpl]
    | some tpl =>
      cases hc : analysisChoiceOf cmd with
      | error e => simp [htpl, hc]
      | ok choice =>
        cases hm : map_results batches choice with
        | error e => simp [htpl, hc, hm]
        | ok groups =>
          simp only [htpl, hc, hm]
          refine List.eq_replicate_iff.mpr ⟨by simp, ?_⟩
          intro x hx
          obtain ⟨r, hr, rfl⟩ := List.mem_map.1 hx
          obtain ⟨g, _, hrg⟩ := writeLoop_records _ _ _ _ _ _ groups fs r hr
          rw [hrg]
          rfl

/-- C10: report mode is completely independent of the configured header —
its outcome is unchanged under any change of the header option, the only
file it ever reads is ./html_template.hbs, and its render record type
(HtmlTemplateData) carries no header field — while source-code mode places
the loaded header text in every render record it produces. -/
theorem report_mode_no_header
    (renderH : String → HtmlTemplateData → Except String String)
    (renderS : String → TemplateData → Except String String)
    (w : World) (fs : FS) (batches : List BenchmarkBatchSplitResults)
    (path : String) (cmd : BenchmarkCmd) (h h' : Option String) :
    (html_write_results renderH w fs batches path { cmd with header := h } =
      html_write_results renderH w fs batches path { cmd with header := h' }) ∧
    ((html_write_results renderH w fs batches path cmd).reads = [htmlTemplatePath]) ∧
    ((write_results renderS w fs batches path cmd).records.map TemplateData.header =
      List.replicate (write_results renderS w fs batches path cmd).records.length
        ((headerOf fs cmd).toOption.getD "")) := by
  refine ⟨rfl, ?_, ?_⟩
  · unfold html_write_results
    cases htpl : fs.read htmlTemplatePath with
    | none => simp [htpl]
    | some tpl =>
      cases hc : analysisChoiceOf cmd with
      | error e => simp [htpl, hc]
      | ok choice =>
        cases hm : map_results batches choice with
        | error e => simp [htpl, hc, hm]
        | ok groups => simp [htpl, hc, hm]
  · unfold write_results
    cases htpl : templateOf fs cmd with
    | error e => simp [htpl]
    | ok tpl =>
      cases hh : headerOf fs cmd with
      | error e => simp [htpl, hh]
      | ok hdr =>
        cases hc : analysisChoiceOf cmd with
        | error e => simp [htpl, hh, hc]
        | ok choice =>
          cases hm : map_results batches choice with
          | error e => simp [htpl, hh, hc, hm]
          | ok groups =>
            simp only [htpl, hh, hc, hm]
            refine List.eq_replicate_iff.mpr ⟨by simp, ?_⟩
            intro x hx
            obtain ⟨r, hr, rfl⟩ := List.mem_map.1 hx
            obtain ⟨g, _, hrg⟩ := writeLoop_records _ _ _ _ _ _ groups fs r hr
            rw [hrg]
            simp [mkRecord, Except.toOption]

-- File-system lemmas (C6, C8).

lemma setEntry_setEntry (es : List (String × String)) (p a b : String) :
    setEntry (setEntry es p a) p b = setEntry es p b := by
  induction es with
  | nil => simp [setEntry]
  | cons e rest ih =>
    by_cases h : e.1 = p
    · simp [setEntry, h]
    · simp [setEntry, h, ih]

lemma FS.write_write (fs : FS) (p a b : String) :
    (fs.write p a).write p b = fs.write p b := by
  simp [FS.write, setEntry_setEntry]

lemma FS.isDir_write (fs : FS) (p c q : String) :
    (fs.write p c).isDir q = fs.isDir q := rfl

/-- With a render capability that always succeeds and an output path that
is not a directory, the per-group loop writes every group to that single
path in order and the final file system holds the last group's rendering. -/
lemma writeLoop_const_path {δ : Type} (f : String → δ → String)
    (tpl path ext : String) (allKeys : List (String × String))
    (mk : (String × String) → List BenchmarkData → δ) :
    ∀ (groups : List ((String × String) × List BenchmarkData)) (fs : FS)
      (glast : (String × String) × List BenchmarkData),
      fs.isDir path = false → groups.getLast? = some glast →
      writeLoop (fun t d => Except.ok (f t d)) tpl path ext allKeys mk fs groups =
        ⟨fs.write path (f tpl (mk glast.1 glast.2)),
         groups.map (fun g => mk g.1 g.2),
         groups.map (fun g => (path, f tpl (mk g.1 g.2))),
         Except.ok ()⟩ := by
  intro groups
  induction groups with
  | nil => intro fs glast _ hlast; cases hlast
  | cons g rest ih =>
    intro fs glast hdir hlast
    obtain ⟨key, results⟩ := g
    cases rest with
    | nil =>
      have hg : glast = (key, results) := by
        simpa using hlast.symm
      simp only [writeLoop, hdir, Bool.false_eq_true, if_false, hg]
      rw [FS.write_write]
      rfl
    | cons g2 rest2 =>
      have hlast2 : (g2 :: rest2).getLast? = some glast := by
        rwa [List.getLast?_cons_cons] at hlast
      have hdir2 : ((fs.write path "").write path (f tpl (mk key results))).isDir path = false := by
        rw [FS.isDir_write, FS.isDir_write]; exact hdir
      rw [writeLoop]
      simp only [hdir, Bool.false_eq_true, if_false]
      rw [ih _ glast hdir2 hlast2]
      simp only [FS.write_write]
      rfl

/-- C6: when the supplied output path is not a directory (an existing
plain file), a run whose rendering always succeeds writes every group, in
order, to that same single path, returns success with no error for the
collision, and the final file system holds exactly the last group's
rendering at that path. -/
theorem single_file_last_write_wins
    (f : String → TemplateData → String)
    (w : World) (fs : FS) (batches : List BenchmarkBatchSplitResults)
    (path : String) (cmd : BenchmarkCmd) (tpl hdr : String)
    (choice : AnalysisChoice)
    (groups : List ((String × String) × List BenchmarkData))
    (glast : (String × String) × List BenchmarkData)
    (htpl : templateOf fs cmd = .ok tpl)
    (hh : headerOf fs cmd = .ok hdr)
    (hc : analysisChoiceOf cmd = .ok choice)
    (hm : map_results batches choice = .ok groups)
    (hdir : fs.isDir path = false)
    (hlast : groups.getLast? = some glast) :
    (write_results (fun t d => Except.ok (f t d)) w fs batches path cmd).result
      = Except.ok () ∧
    (write_results (fun t d => Except.ok (f t d)) w fs batches path cmd).writes
      = groups.map (fun g =>
          (path, f tpl (mkRecord w.argv (w.clock w.tick) hdr (cmdDataOf cmd) g.1 g.2))) ∧
    (write_results (fun t d => Except.ok (f t d)) w fs batches path cmd).fs
      = fs.write path
          (f tpl (mkRecord w.argv (w.clock w.tick) hdr (cmdDataOf cmd) glast.1 glast.2)) := by
  unfold write_results
  simp only [htpl, hh, hc, hm]
  rw [writeLoop_const_path f tpl path "rs" (groups.map Prod.fst)
    (mkRecord w.argv (w.clock w.tick) hdr (cmdDataOf cmd)) groups fs glast hdir hlast]
  exact ⟨rfl, rfl, rfl⟩

lemma find?_setEntry_self (es : List (String × String)) (p c : String) :
    ((setEntry es p c).find? (fun e => e.1 == p)).map Prod.snd = some c := by
  induction es with
  | nil => simp [setEntry]
  | cons e es ih =>
    by_cases h : e.1 = p
    · simp [setEntry, h]
    · have hb : (e.1 == p) = false := by simp [h]
      simp [setEntry, h, hb, ih]

lemma find?_setEntry_other (es : List (String × String)) (p c q : String)
    (h : ¬ q = p) :
    (setEntry es p c).find? (fun e => e.1 == q) = es.find? (fun e => e.1 == q) := by
  have hpq : ¬ p = q := fun hh => h hh.symm
  induction es with
  | nil => simp [setEntry, hpq]
  | cons e es ih =>
    by_cases he : e.1 = p
    · have hb2 : (e.1 == q) = false := by rw [he]; simp [hpq]
      simp [setEntry, he, hpq, hb2]
    · by_cases heq : e.1 = q
      · simp [setEntry, he, heq, h]
      · have hb : (e.1 == q) = false := by simp [heq]
        simp [setEntry, he, hb, ih, h]

lemma FS.read_write_self (fs : FS) (p c : String) :
    (fs.write p c).read p = some c :=
  find?_setEntry_self fs.files p c

lemma FS.read_write_other (fs : FS) (p c q : String) (h : ¬ q = p) :
    (fs.write p c).read q = fs.read q := by
  show ((setEntry fs.files p c).find? (fun e => e.1 == q)).map Prod.snd = _
  rw [find?_setEntry_other fs.files p c q h]
  rfl

lemma resolvedPath_write (fs : FS) (p c path ext : String)
    (ks : List (String × String)) (k : String × String) :
    resolvedPath (fs.write p c) path ext ks k = resolvedPath fs path ext ks k := rfl

/-- When rendering succeeds on a prefix of the groups and fails on the
next one, the loop stops with the wrapped error; the successful writes are
exactly the prefix's, the prefix's files (at pairwise distinct paths) hold
their rendered contents, and every other path except the failing group's
is untouched. -/
lemma writeLoop_fail {δ : Type} (render : String → δ → Except String String)
    (tpl path ext : String) (allKeys : List (String × String))
    (mk : (String × String) → List BenchmarkData → δ) (msg : String)
    (okText : (String × String) × List BenchmarkData → String) :
    ∀ (pre : List ((String × String) × List BenchmarkData))
      (gbad : (String × String) × List BenchmarkData)
      (post : List ((String × String) × List BenchmarkData)) (fs : FS),
      (∀ g ∈ pre, render tpl (mk g.1 g.2) = Except.ok (okText g)) →
      render tpl (mk gbad.1 gbad.2) = Except.error msg →
      ((pre ++ [gbad]).map (fun g => resolvedPath fs path ext allKeys g.1)).Nodup →
      ((writeLoop render tpl path ext allKeys mk fs (pre ++ gbad :: post)).result
          = Except.error (.ioErr msg) ∧
       (writeLoop render tpl path ext allKeys mk fs (pre ++ gbad :: post)).writes
          = pre.map (fun g => (resolvedPath fs path ext allKeys g.1, okText g)) ∧
       (∀ g ∈ pre,
         (writeLoop render tpl path ext allKeys mk fs (pre ++ gbad :: post)).fs.read
             (resolvedPath fs path ext allKeys g.1) = some (okText g)) ∧
       (∀ q : String,
         q ∉ (pre ++ [gbad]).map (fun g => resolvedPath fs path ext allKeys g.1) →
         (writeLoop render tpl path ext allKeys mk fs (pre ++ gbad :: post)).fs.read q
            = fs.read q)) := by
  intro pre
  induction pre with
  | nil =>
    intro gbad post fs _ hbad _
    obtain ⟨bk, bres⟩ := gbad
    refine ⟨?_, ?_, ?_, ?_⟩
    · simp only [List.nil_append, writeLoop, hbad]
    · simp only [List.nil_append, writeLoop, hbad, List.map_nil]
    · intro g hg
      simp at hg
    · intro q hq
      simp only [List.nil_append, writeLoop, hbad]
      have hne : ¬ q = (if fs.isDir path = true
          then path ++ "/" ++ outputFileName allKeys bk ext else path) := by
        simpa [resolvedPath] using hq
      exact FS.read_write_other fs _ "" q hne
  | cons g pre' ih =>
    intro gbad post fs hpre hbad hnodup
    obtain ⟨gk, gres⟩ := g
    have hgok : render tpl (mk gk gres) = Except.ok (okText (gk, gres)) :=
      hpre (gk, gres) (by simp)
    have hfp : (if fs.isDir path = true
        then path ++ "/" ++ outputFileName allKeys gk ext else path)
        = resolvedPath fs path ext allKeys gk := rfl
    have hpre' : ∀ g ∈ pre', render tpl (mk g.1 g.2) = Except.ok (okText g) :=
      fun g hg => hpre g (by simp [hg])
    simp only [List.cons_append, writeLoop, hgok]
    rw [FS.write_write, hfp]
    rw [List.cons_append, List.map_cons] at hnodup
    have hnodup' := (List.nodup_cons.mp hnodup).2
    have hhead := (List.nodup_cons.mp hnodup).1
    obtain ⟨ih1, ih2, ih3, ih4⟩ :=
      ih gbad post
        (fs.write (resolvedPath fs path ext allKeys gk) (okText (gk, gres)))
        hpre' hbad (by simpa only [resolvedPath_write] using hnodup')
    simp only [resolvedPath_write] at ih2 ih3 ih4
    refine ⟨ih1, ?_, ?_, ?_⟩
    · rw [List.map_cons]
      exact congrArg
        (fun l => (resolvedPath fs path ext allKeys gk, okText (gk, gres)) :: l) ih2
    · intro g' hg'
      rcases List.mem_cons.mp hg' with hg' | hg'
      · rw [hg']
        exact (ih4 (resolvedPath fs path ext allKeys gk) hhead).trans
          (FS.read_write_self fs _ _)
      · exact ih3 g' hg'
    · intro q hq
      rw [List.map_cons] at hq
      have hq1 : ¬ q = resolvedPath fs path ext allKeys gk := by
        intro hh; exact hq (by rw [hh]; exact List.mem_cons_self _ _)
      have hq2 : q ∉ (pre' ++ [gbad]).map
          (fun g => resolvedPath fs path ext allKeys g.1) := by
        intro hh; exact hq (List.mem_cons_of_mem _ hh)
      exact (ih4 q hq2).trans (FS.read_write_other fs _ _ q hq1)


/-- C6 witness: with two groups and the plain file "out" as output path,
the run succeeds, both groups are written to "out" in order, and the final
file system holds the second group's rendering there. -/
theorem single_file_last_write_wins_witness :
    (write_results (fun _ d => Except.ok d.pallet) wTest fsSingle
        [batchOf "p1" "i", batchOf "p2" "i"] "out" cmdPlain).result = Except.ok () ∧
    (write_results (fun _ d => Except.ok d.pallet) wTest fsSingle
        [batchOf "p1" "i", batchOf "p2" "i"] "out" cmdPlain).writes
      = [("out", "p1"), ("out", "p2")] ∧
    (write_results (fun _ d => Except.ok d.pallet) wTest fsSingle
        [batchOf "p1" "i", batchOf "p2" "i"] "out" cmdPlain).fs
      = fsSingle.write "out" "p2" := by
  obtain ⟨h1, h2, h3⟩ := single_file_last_write_wins (fun _ d => d.pallet) wTest fsSingle
    [batchOf "p1" "i", batchOf "p2" "i"] "out" cmdPlain TEMPLATE ""
    AnalysisChoice.minSquares
    (map_results_pure [batchOf "p1" "i", batchOf "p2" "i"])
    (("p2", "i"), [get_benchmark_data (batchOf "p2" "i")])
    rfl rfl rfl (by decide) rfl (by decide)
  exact ⟨h1, h2.trans (by decide), h3.trans (by decide)⟩

/-- C7 counterexample: in report mode, a readable configured template file
is ignored (the run fails for want of ./html_template.hbs even though
source-mode template resolution would return the configured text), and
with no configured template the built-in default is not used either — the
run still fails for want of ./html_template.hbs. -/
theorem template_loading_cex :
    ((html_write_results (fun _ _ => Except.ok "") wTest fsTplOnly [] "out"
        cmdWithTpl).result
      = Except.error (WErr.ioErr ("cannot read " ++ htmlTemplatePath))) ∧
    templateOf fsTplOnly cmdWithTpl = Except.ok "T" ∧
    ((html_write_results (fun _ _ => Except.ok "") wTest (FS.mk [] []) [] "out"
        cmdPlain).result
      = Except.error (WErr.ioErr ("cannot read " ++ htmlTemplatePath))) := by
  exact ⟨by decide, by decide, by decide⟩

/-- C7 amended: in source-code mode the template is the configured file's
contents (an input-output error when unreadable) and otherwise the
built-in default; in report mode the configured template is ignored
entirely and the template is always read from ./html_template.hbs, the run
failing with an input-output error when that file is unreadable. -/
theorem template_loading_amended (fs : FS) (cmd : BenchmarkCmd) :
    (∀ tf, cmd.template = some tf →
      templateOf fs cmd =
        (match fs.read tf with
         | some t => Except.ok t
         | none => Except.error (WErr.ioErr ("cannot read " ++ tf)))) ∧
    (cmd.template = none → templateOf fs cmd = Except.ok TEMPLATE) ∧
    (∀ (render : String → HtmlTemplateData → Except String String) (w : World)
       (batches : List BenchmarkBatchSplitResults) (path : String)
       (t t' : Option String),
      html_write_results render w fs batches path { cmd with template := t } =
        html_write_results render w fs batches path { cmd with template := t' }) ∧
    (∀ (render : String → HtmlTemplateData → Except String String) (w : World)
       (batches : List BenchmarkBatchSplitResults) (path : String),
      fs.read htmlTemplatePath = none →
        (html_write_results render w fs batches path cmd).result =
          Except.error (WErr.ioErr ("cannot read " ++ htmlTemplatePath))) := by
  refine ⟨?_, ?_, ?_, ?_⟩
  · intro tf htf
    cases h : fs.read tf <;> simp [templateOf, htf, h]
  · intro htf
    simp [templateOf, htf]
  · intro render w batches path t t'
    rfl
  · intro render w batches path hread
    simp [html_write_results, hread]

theorem template_loading_amended_witness :
    templateOf fsTplOnly cmdWithTpl = Except.ok "T" ∧
    templateOf fsTplOnly cmdPlain = Except.ok TEMPLATE ∧
    (html_write_results (fun _ _ => Except.ok "") wTest fsTplOnly [] "out"
        cmdWithTpl).result
      = Except.error (WErr.ioErr ("cannot read " ++ htmlTemplatePath)) := by
  refine ⟨?_, ?_, ?_⟩
  · exact ((template_loading_amended fsTplOnly cmdWithTpl).1 "mytpl.hbs" rfl).trans
      (by decide)
  · exact (template_loading_amended fsTplOnly cmdPlain).2.1 rfl
  · exact (template_loading_amended fsTplOnly cmdWithTpl).2.2.2 _ wTest [] "out"
      (by decide)

/-- C8 counterexample: in single-file mode with two groups, a render
failure on the second group is returned as an input-output error, but the
file written for the first group does not remain unchanged: the failing
group's file creation truncates the shared path, so its content is the
empty string rather than the first group's rendering. -/
theorem fail_fast_cex :
    (write_results renderFailP2 wTest fsSingle
        [batchOf "p1" "i", batchOf "p2" "i"] "out" cmdPlain).result
      = Except.error (WErr.ioErr "boom") ∧
    (write_results renderFailP2 wTest fsSingle
        [batchOf "p1" "i", batchOf "p2" "i"] "out" cmdPlain).writes
      = [("out", "ONE")] ∧
    (write_results renderFailP2 wTest fsSingle
        [batchOf "p1" "i", batchOf "p2" "i"] "out" cmdPlain).fs.read "out"
      = some "" ∧
    ¬ ((write_results renderFailP2 wTest fsSingle
        [batchOf "p1" "i", batchOf "p2" "i"] "out" cmdPlain).fs.read "out"
      = some "ONE") := by
  exact ⟨by decide, by decide, by decide, by decide⟩

/-- C8 amended: if rendering fails for some group, write_results returns
that failure converted to the input-output error kind, the successful
writes are exactly those of the groups before the failing one, and the
files of those earlier groups keep their rendered contents provided their
resolved output paths are distinct from each other's and from the failing
group's (in single-file mode the failing group's file creation truncates
the shared path first). -/
theorem fail_fast_amended
    (render : String → TemplateData → Except String String)
    (w : World) (fs : FS) (batches : List BenchmarkBatchSplitResults)
    (path : String) (cmd : BenchmarkCmd) (tpl hdr msg : String)
    (choice : AnalysisChoice)
    (groups pre post : List ((String × String) × List BenchmarkData))
    (gbad : (String × String) × List BenchmarkData)
    (okText : (String × String) × List BenchmarkData → String)
    (htpl : templateOf fs cmd = .ok tpl)
    (hh : headerOf fs cmd = .ok hdr)
    (hc : analysisChoiceOf cmd = .ok choice)
    (hm : map_results batches choice = .ok groups)
    (hsplit : groups = pre ++ gbad :: post)
    (hpre : ∀ g ∈ pre,
      render tpl (mkRecord w.argv (w.clock w.tick) hdr (cmdDataOf cmd) g.1 g.2)
        = Except.ok (okText g))
    (hbad : render tpl (mkRecord w.argv (w.clock w.tick) hdr (cmdDataOf cmd) gbad.1 gbad.2)
        = Except.error msg)
    (hnodup : ((pre ++ [gbad]).map
        (fun g => resolvedPath fs path "rs" (groups.map Prod.fst) g.1)).Nodup) :
    (write_results render w fs batches path cmd).result = Except.error (.ioErr msg) ∧
    (write_results render w fs batches path cmd).writes =
      pre.map (fun g => (resolvedPath fs path "rs" (groups.map Prod.fst) g.1, okText g)) ∧
    (∀ g ∈ pre,
      (write_results render w fs batches path cmd).fs.read
          (resolvedPath fs path "rs" (groups.map Prod.fst) g.1) = some (okText g)) := by
  subst hsplit
  unfold write_results
  simp only [htpl, hh, hc, hm]
  obtain ⟨l1, l2, l3, _⟩ := writeLoop_fail render tpl path "rs"
    ((pre ++ gbad :: post).map Prod.fst)
    (mkRecord w.argv (w.clock w.tick) hdr (cmdDataOf cmd)) msg okText
    pre gbad post fs hpre hbad hnodup
  exact ⟨l1, l2, l3⟩

theorem fail_fast_amended_witness :
    (write_results renderFailP2 wTest fsDir
        [batchOf "p1" "i", batchOf "p2" "i"] "d" cmdPlain).result
      = Except.error (WErr.ioErr "boom") ∧
    (write_results renderFailP2 wTest fsDir
        [batchOf "p1" "i", batchOf "p2" "i"] "d" cmdPlain).writes
      = [("d/p1.rs", "ONE")] ∧
    (write_results renderFailP2 wTest fsDir
        [batchOf "p1" "i", batchOf "p2" "i"] "d" cmdPlain).fs.read "d/p1.rs"
      = some "ONE" := by
  obtain ⟨h1, h2, h3⟩ := fail_fast_amended renderFailP2 wTest fsDir
    [batchOf "p1" "i", batchOf "p2" "i"] "d" cmdPlain TEMPLATE "" "boom"
    AnalysisChoice.minSquares
    (map_results_pure [batchOf "p1" "i", batchOf "p2" "i"])
    [(("p1", "i"), [get_benchmark_data (batchOf "p1" "i")])]
    []
    (("p2", "i"), [get_benchmark_data (batchOf "p2" "i")])
    (fun _ => "ONE")
    rfl rfl rfl (by decide) (by decide) (by decide) (by decide) (by decide)
  refine ⟨h1, h2.trans (by decide), ?_⟩
  exact h3 (("p1", "i"), [get_benchmark_data (batchOf "p1" "i")]) (by decide)
